import Mathlib

/-!
Verification of the policy drift detector (src/main.py) against its
specification.  The document model and the constraint evaluator are
modelled from the spec (the source delegates evaluation to the external
jsonschema library, which is not part of this repository); the functions
validate_data and main are embedded from src/main.py.
-/

/-- Document Node: a parsed YAML/JSON value.  Mappings are association
lists in insertion order with pairwise distinct keys; numbers use exact
rational semantics (the spec requires exact value comparison and no
numeric-to-string coercion). -/
inductive JValue where
  | null
  | bool (b : Bool)
  | num (q : Rat)
  | str (s : String)
  | arr (xs : List JValue)
  | obj (kvs : List (String × JValue))

mutual

/-- Structural equality of Document Nodes (used by the `enum` constraint,
which compares permitted literal values with the data value exactly). -/
def JValue.beq : JValue → JValue → Bool
  | .null, .null => true
  | .bool a, .bool b => a == b
  | .num a, .num b => a == b
  | .str a, .str b => a == b
  | .arr xs, .arr ys => beqList xs ys
  | .obj a, .obj b => beqKVList a b
  | _, _ => false

/-- Elementwise equality of Sequence contents. -/
def beqList : List JValue → List JValue → Bool
  | [], [] => true
  | x :: xs, y :: ys => JValue.beq x y && beqList xs ys
  | _, _ => false

/-- Pairwise equality of Mapping contents. -/
def beqKVList : List (String × JValue) → List (String × JValue) → Bool
  | [], [] => true
  | (k1, v1) :: xs, (k2, v2) :: ys => k1 == k2 && JValue.beq v1 v2 && beqKVList xs ys
  | _, _ => false

end

/-- Key lookup in a Mapping node: first binding wins (keys are unique by
the Document Model invariant). -/
def lookup (kvs : List (String × JValue)) (k : String) : Option JValue :=
  match kvs with
  | [] => none
  | (k', v) :: rest => if k' = k then some v else lookup rest k

/-- Name of a Document Node's kind, as the `type` constraint refers to it. -/
def kindName : JValue → String
  | .null => "null"
  | .bool _ => "boolean"
  | .num _ => "number"
  | .str _ => "string"
  | .arr _ => "array"
  | .obj _ => "object"

/-- Whether a data node's kind matches a `type` constraint value. -/
def typeMatches (t : String) (d : JValue) : Bool :=
  if t = "integer" then
    match d with
    | .num q => q.den = 1
    | _ => false
  else decide (t = kindName d)

/-- A scalar Document Node (Null, Boolean, Number or String). -/
def isScalar : JValue → Bool
  | .obj _ => false
  | .arr _ => false
  | _ => true

/-- A container Document Node (Mapping or Sequence). -/
def isContainer : JValue → Bool
  | .obj _ => true
  | .arr _ => true
  | _ => false

/-- One step of a Violation's path: a Mapping key or a Sequence index. -/
inductive PathElem where
  | key (k : String)
  | idx (i : Nat)
deriving DecidableEq, Repr

/-- The constraint kind a Violation reports. -/
inductive Rule where
  | TypeMismatch
  | EnumMismatch
  | PatternMismatch
  | RangeViolation
  | MissingRequired
deriving DecidableEq, Repr

/-- A rough textual rendering of a Document Node, used in a Violation's
`actual` field. -/
def render : JValue → String
  | .null => "null"
  | .bool b => toString b
  | .num q => toString q
  | .str s => s
  | .arr _ => "<array>"
  | .obj _ => "<object>"

/-- Violation: immutable record of one constraint failure. -/
structure Violation where
  path : List PathElem
  rule : Rule
  expected : String
  actual : String
deriving DecidableEq, Repr

/-- Whether a candidate value occurs in an `enum` list, by exact structural
equality (no coercion). -/
def hasVal (vs : List JValue) (v : JValue) : Bool :=
  vs.any (fun w => JValue.beq w v)

/-- The `type` constraint check (step 1): the mismatch flag for a policy
Mapping against a data node.  A `type` key whose value is not a string is
not a recognized constraint. -/
def typeMismatchB (pkvs : List (String × JValue)) (data : JValue) : Bool :=
  match lookup pkvs "type" with
  | some (.str t) => !typeMatches t data
  | _ => false

/-- The `enum` constraint check (step 2): fails when the data node's scalar
value is not a member of the permitted list.  Containers have no scalar
value, so `enum` does not apply to them. -/
def enumFailB (pkvs : List (String × JValue)) (data : JValue) : Bool :=
  match lookup pkvs "enum" with
  | some (.arr vs) => isScalar data && !hasVal vs data
  | _ => false

/-- Violations from the `pattern` constraint (step 3), for a given
string-matching rule `pm`. -/
def patternViols (pm : String → String → Bool) (pkvs : List (String × JValue))
    (data : JValue) (path : List PathElem) : List Violation :=
  match lookup pkvs "pattern", data with
  | some (.str pat), .str s =>
      if pm pat s then [] else [⟨path, Rule.PatternMismatch, pat, s⟩]
  | _, _ => []

/-- Violations from the `minimum`/`maximum` constraints (step 4), one per
bound violated, minimum first. -/
def rangeViols (pkvs : List (String × JValue)) (data : JValue)
    (path : List PathElem) : List Violation :=
  match data with
  | .num n =>
      (match lookup pkvs "minimum" with
       | some (.num m) =>
           if n < m then [⟨path, Rule.RangeViolation, "minimum " ++ toString m, toString n⟩]
           else []
       | _ => []) ++
      (match lookup pkvs "maximum" with
       | some (.num m) =>
           if m < n then [⟨path, Rule.RangeViolation, "maximum " ++ toString m, toString n⟩]
           else []
       | _ => [])
  | _ => []

/-- Violations from the `required` constraint (step 5): one MissingRequired
per declared key absent from the data Mapping, in declaration order. -/
def requiredViols (pkvs : List (String × JValue)) (data : JValue)
    (path : List PathElem) : List Violation :=
  match lookup pkvs "required", data with
  | some (.arr rs), .obj dkvs =>
      rs.filterMap (fun r =>
        match r with
        | .str k =>
            match lookup dkvs k with
            | none => some ⟨path ++ [PathElem.key k], Rule.MissingRequired, k, "absent"⟩
            | some _ => none
        | _ => none)
  | _, _ => []

/-- The `properties` sub-policies of a policy Mapping, in declaration
order, when declared as a Mapping. -/
def propsOf (pkvs : List (String × JValue)) : Option (List (String × JValue)) :=
  match lookup pkvs "properties" with
  | some (.obj props) => some props
  | _ => none

mutual

/-- Size of a Document Node: an upper bound for the recursion depth of
the evaluator. -/
def jsize : JValue → Nat
  | .null => 1
  | .bool _ => 1
  | .num _ => 1
  | .str _ => 1
  | .arr xs => 1 + jsizeList xs
  | .obj kvs => 1 + jsizeKV kvs

/-- Combined size of Sequence contents. -/
def jsizeList : List JValue → Nat
  | [] => 0
  | x :: xs => 1 + jsize x + jsizeList xs

/-- Combined size of Mapping contents. -/
def jsizeKV : List (String × JValue) → Nat
  | [] => 0
  | (_, v) :: rest => 1 + jsize v + jsizeKV rest

end

/-- Modelled from the spec: the Constraint Evaluator (section 4.2), which
the source delegates to the external jsonschema library and is therefore
missing from this repository.  Fuel-indexed; depth first, the constraint
steps in their specified order (type, enum, pattern, range, required,
properties, items), object keys in `properties` declaration order, then
index order for `items`.  An enum failure stops further constraints; a
type mismatch suppresses recursion into `properties`/`items`.  A policy
node that is not a Mapping carries no recognized constraint keys and
matches anything.  The string-matching rule for `pattern` is the
parameter `pm` (the spec does not fix a dialect).  The fuel only bounds
the recursion depth; `evalF` is fuel-independent for any fuel at least
the policy size (see `evalF_congr`). -/
def evalF (pm : String → String → Bool) :
    Nat → JValue → JValue → List PathElem → List Violation
  | 0, _, _, _ => []
  | fuel + 1, policy, data, path =>
    match policy with
    | .obj pkvs =>
        let tm := typeMismatchB pkvs data
        let tviols : List Violation :=
          if tm then [⟨path, Rule.TypeMismatch, "type", render data⟩] else []
        if enumFailB pkvs data then
          tviols ++ [⟨path, Rule.EnumMismatch, "enum", render data⟩]
        else
          tviols ++ patternViols pm pkvs data path ++ rangeViols pkvs data path ++
          requiredViols pkvs data path ++
          (match propsOf pkvs, data with
           | some props, .obj dkvs =>
               if tm then [] else
               (props.map (fun kv =>
                  match lookup dkvs kv.1 with
                  | some v => evalF pm fuel kv.2 v (path ++ [PathElem.key kv.1])
                  | none => [])).flatten
           | _, _ => []) ++
          (match lookup pkvs "items", data with
           | some ip, .arr xs =>
               if tm then [] else
               (xs.enum.map (fun iv =>
                  evalF pm fuel ip iv.2 (path ++ [PathElem.idx iv.1]))).flatten
           | _, _ => [])
    | _ => []

/-- Constraint Evaluator: `evaluate(policyNode, dataNode, path) → sequence
of Violation`.  The policy size is always enough fuel, so this is the
total recursive evaluator of the spec. -/
def evaluate (pm : String → String → Bool) (policy data : JValue)
    (path : List PathElem) : List Violation :=
  evalF pm (jsize policy) policy data path

/-- Drift Report: aggregate verdict plus ordered violations. -/
structure DriftReport where
  compliant : Bool
  violations : List Violation
deriving DecidableEq, Repr

/-- Report constructor: `compliant` is true iff `violations` is empty. -/
def buildReport (vs : List Violation) : DriftReport :=
  ⟨vs.isEmpty, vs⟩

/-- Hard failures of the engine (the spec's error taxonomy; MalformedInput
belongs to the loader and never reaches this stage). -/
inductive EngineError where
  | invalidPolicy
deriving DecidableEq, Repr

/-- Modelled from the spec: the Policy Engine `check` (section 4.4),
realized in the source only as the external call `validate(instance=data,
schema=schema)` inside validate_data.  It rejects a bare scalar policy
root with InvalidPolicy (the jsonschema SchemaError), and otherwise runs
the Constraint Evaluator and builds the report. -/
def check (pm : String → String → Bool) (policy data : JValue) :
    Except EngineError DriftReport :=
  if isContainer policy then Except.ok (buildReport (evaluate pm policy data []))
  else Except.error EngineError.invalidPolicy

/-- Log records validate_data can emit (src/main.py lines 69-77: one
logging.error call per caught exception kind). -/
inductive LogEvent where
  | validationError
  | schemaError
deriving DecidableEq, Repr

/-- validate_data from src/main.py (lines 57-77) together with the log
records it emits: it runs the validation, returns True on success, and
catches ValidationError (data does not satisfy the policy) and SchemaError
(unusable policy), logging an error and returning False in both cases. -/
def validate_data_run (pm : String → String → Bool) (data schema : JValue) :
    Bool × List LogEvent :=
  match check pm schema data with
  | Except.ok r => if r.compliant then (true, []) else (false, [LogEvent.validationError])
  | Except.error _ => (false, [LogEvent.schemaError])

/-- validate_data's return value (src/main.py lines 57-77): True iff the
data is valid against the schema; every validation or schema error is
caught and turned into False. -/
def validate_data (pm : String → String → Bool) (data schema : JValue) : Bool :=
  (validate_data_run pm data schema).1

/-- Python truthiness of a parsed YAML/JSON document, as tested by
`if not policy_data` in src/main.py: None, False, 0, "", [] and {} are
falsy. -/
def falsy : JValue → Bool
  | .null => true
  | .bool b => !b
  | .num q => q = 0
  | .str s => s = ""
  | .arr xs => xs.isEmpty
  | .obj kvs => kvs.isEmpty

/-- Outcome of a run of main after both documents loaded: either an early
exit with a status code, or a validation verdict. -/
inductive MainOutcome where
  | exit (code : Nat)
  | verdict (compliant : Bool)
deriving DecidableEq, Repr

/-- main from src/main.py (lines 89-109), after both documents have been
loaded and parsed successfully: a falsy policy document exits with status
1, then a falsy data document exits with status 1, and only otherwise is
validate_data invoked. -/
def main_after_load (pm : String → String → Bool) (policy_data system_data : JValue) :
    MainOutcome :=
  if falsy policy_data then MainOutcome.exit 1
  else if falsy system_data then MainOutcome.exit 1
  else MainOutcome.verdict (validate_data pm system_data policy_data)

/-- The recognized constraint keys of a Policy Node. -/
def recognizedKeys : List String :=
  ["type", "required", "properties", "items", "enum", "pattern", "minimum", "maximum"]

/-- The keys a policy Mapping declares under `properties`. -/
def propKeys (policy : JValue) : List String :=
  match policy with
  | .obj pkvs =>
      match propsOf pkvs with
      | some props => props.map Prod.fst
      | none => []
  | _ => []

/-- Violations from the `properties` constraint (step 6), written without
the termination bookkeeping of `evaluate`. -/
def propsViols (pm : String → String → Bool) (pkvs : List (String × JValue))
    (data : JValue) (path : List PathElem) : List Violation :=
  match propsOf pkvs, data with
  | some props, .obj dkvs =>
      if typeMismatchB pkvs data then [] else
      (props.map (fun kv =>
         match lookup dkvs kv.1 with
         | some v => evaluate pm kv.2 v (path ++ [PathElem.key kv.1])
         | none => [])).flatten
  | _, _ => []

/-- Violations from the `items` constraint (step 7). -/
def itemsViols (pm : String → String → Bool) (pkvs : List (String × JValue))
    (data : JValue) (path : List PathElem) : List Violation :=
  match lookup pkvs "items", data with
  | some ip, .arr xs =>
      if typeMismatchB pkvs data then []
      else (xs.enum.map (fun iv => evaluate pm ip iv.2 (path ++ [PathElem.idx iv.1]))).flatten
  | _, _ => []

/-- A trivial string-matching rule, used to instantiate the `pattern`
parameter in concrete runs (none of the concrete policies use `pattern`). -/
def pm0 : String → String → Bool := fun _ _ => true

/-- Scenario A policy: `{type: object, required: [port], properties:
{port: {type: number, minimum: 1, maximum: 65535}}}`. -/
def polA : JValue :=
  JValue.obj [("type", JValue.str "object"),
              ("required", JValue.arr [JValue.str "port"]),
              ("properties", JValue.obj [("port",
                 JValue.obj [("type", JValue.str "number"),
                             ("minimum", JValue.num 1),
                             ("maximum", JValue.num 65535)])])]

/-- Scenario A data: `{port: 70000}`. -/
def dataA : JValue := JValue.obj [("port", JValue.num 70000)]

/-- Scenario D policy: `{type: object, properties: {x: {type: string}}}`. -/
def polD : JValue :=
  JValue.obj [("type", JValue.str "object"),
              ("properties", JValue.obj [("x",
                 JValue.obj [("type", JValue.str "string")])])]

/-- Scenario D data: `{x: "ok"}`. -/
def dataD : JValue := JValue.obj [("x", JValue.str "ok")]

/-- Scenario C policy: `{required: [admins]}` (violated by `{}`). -/
def polReq : JValue :=
  JValue.obj [("required", JValue.arr [JValue.str "admins"])]

theorem jsize_pos (v : JValue) : 1 ≤ jsize v := by
  cases v <;> simp [jsize]

theorem lookup_jsize {kvs : List (String × JValue)} {k : String} {v : JValue}
    (h : lookup kvs k = some v) : jsize v < jsizeKV kvs := by
  induction kvs with
  | nil => simp [lookup] at h
  | cons p rest ih =>
      obtain ⟨k', v'⟩ := p
      by_cases hk : k' = k
      · simp [lookup, hk] at h
        subst h
        simp [jsizeKV]
        omega
      · simp [lookup, hk] at h
        have := ih h
        simp [jsizeKV]
        omega

theorem propsOf_jsize {pkvs props : List (String × JValue)}
    (h : propsOf pkvs = some props) : jsizeKV props < jsizeKV pkvs := by
  unfold propsOf at h
  revert h
  cases hl : lookup pkvs "properties" with
  | none => intro h; exact absurd h (by simp)
  | some v =>
      cases v with
      | obj props' =>
          intro h
          simp at h
          subst h
          have := lookup_jsize hl
          simp [jsize] at this
          omega
      | null => intro h; exact absurd h (by simp)
      | bool b => intro h; exact absurd h (by simp)
      | num q => intro h; exact absurd h (by simp)
      | str s => intro h; exact absurd h (by simp)
      | arr xs => intro h; exact absurd h (by simp)

theorem mem_jsize : ∀ {props : List (String × JValue)} {kv : String × JValue},
    kv ∈ props → jsize kv.2 < jsizeKV props := by
  intro props
  induction props with
  | nil => intro kv h; simp at h
  | cons p rest ih =>
      intro kv h
      rcases List.mem_cons.mp h with h1 | h1
      · subst h1
        obtain ⟨k, v⟩ := kv
        simp only [jsizeKV]
        omega
      · have := ih h1
        obtain ⟨k, v⟩ := p
        simp only [jsizeKV]
        omega

/-- Fuel irrelevance: any fuel at least the policy size evaluates to the
same violation list, so `evaluate` is the fixed point of the recursion. -/
theorem evalF_congr (pm : String → String → Bool) :
    ∀ (n m : Nat) (policy data : JValue) (path : List PathElem),
      jsize policy ≤ n → jsize policy ≤ m →
      evalF pm n policy data path = evalF pm m policy data path := by
  intro n
  induction n with
  | zero =>
      intro m policy data path hn hm
      have := jsize_pos policy
      omega
  | succ n ih =>
      intro m policy data path hn hm
      cases m with
      | zero =>
          have := jsize_pos policy
          omega
      | succ m =>
          cases policy with
          | null => simp [evalF]
          | bool b => simp [evalF]
          | num q => simp [evalF]
          | str s => simp [evalF]
          | arr xs => simp [evalF]
          | obj pkvs =>
              have hn2 : jsizeKV pkvs ≤ n := by simp [jsize] at hn; omega
              have hm2 : jsizeKV pkvs ≤ m := by simp [jsize] at hm; omega
              simp only [evalF]
              cases he : enumFailB pkvs data
              · simp only [he, Bool.false_eq_true, if_false]
                congr 1
                · congr 1
                  cases hp : propsOf pkvs with
                  | none => cases data <;> rfl
                  | some props =>
                      cases data with
                      | obj dkvs =>
                          by_cases ht : typeMismatchB pkvs (JValue.obj dkvs) = true
                          · simp [ht]
                          · simp only [ht, Bool.false_eq_true, if_false]
                            congr 1
                            apply List.map_congr_left
                            intro kv hkv
                            cases hl : lookup dkvs kv.1 with
                            | none => rfl
                            | some v =>
                                show evalF pm n kv.2 v (path ++ [PathElem.key kv.1]) =
                                  evalF pm m kv.2 v (path ++ [PathElem.key kv.1])
                                have h1 : jsize kv.2 < jsizeKV props := mem_jsize hkv
                                have h2 : jsizeKV props < jsizeKV pkvs := propsOf_jsize hp
                                exact ih m kv.2 v (path ++ [PathElem.key kv.1])
                                  (by omega) (by omega)
                      | null => rfl
                      | bool b => rfl
                      | num q => rfl
                      | str s => rfl
                      | arr xs => rfl
                · cases hi : lookup pkvs "items" with
                  | none => cases data <;> rfl
                  | some ip =>
                      cases data with
                      | arr xs =>
                          by_cases ht : typeMismatchB pkvs (JValue.arr xs) = true
                          · simp [ht]
                          · simp only [ht, Bool.false_eq_true, if_false]
                            congr 1
                            apply List.map_congr_left
                            intro iv hiv
                            have h1 := lookup_jsize hi
                            exact ih m ip iv.2 (path ++ [PathElem.idx iv.1])
                              (by omega) (by omega)
                      | null => rfl
                      | bool b => rfl
                      | num q => rfl
                      | str s => rfl
                      | obj dkvs => rfl
              · simp [he]

/-- Unfolding of the evaluator at a policy Mapping, in terms of the seven
constraint parts. -/
theorem evaluate_obj (pm : String → String → Bool) (pkvs : List (String × JValue))
    (data : JValue) (path : List PathElem) :
    evaluate pm (.obj pkvs) data path =
      (if typeMismatchB pkvs data then [⟨path, Rule.TypeMismatch, "type", render data⟩] else []) ++
      (if enumFailB pkvs data then [⟨path, Rule.EnumMismatch, "enum", render data⟩]
       else patternViols pm pkvs data path ++ rangeViols pkvs data path ++
            requiredViols pkvs data path ++ propsViols pm pkvs data path ++
            itemsViols pm pkvs data path) := by
  have hs : jsize (JValue.obj pkvs) = jsizeKV pkvs + 1 := by rw [jsize]; omega
  rw [evaluate, hs]
  simp only [evalF]
  cases he : enumFailB pkvs data with
  | true => simp [he]
  | false =>
      simp only [he, Bool.false_eq_true, if_false, List.append_assoc]
      congr 2
      congr 1
      congr 1
      congr 1
      · unfold propsViols
        cases hp : propsOf pkvs with
        | none => cases data <;> rfl
        | some props =>
            cases data with
            | obj dkvs =>
                by_cases ht : typeMismatchB pkvs (JValue.obj dkvs) = true
                · simp [ht]
                · simp only [ht, Bool.false_eq_true, if_false]
                  congr 1
                  apply List.map_congr_left
                  intro kv hkv
                  cases hl : lookup dkvs kv.1 with
                  | none => rfl
                  | some v =>
                      show evalF pm (jsizeKV pkvs) kv.2 v (path ++ [PathElem.key kv.1]) =
                        evaluate pm kv.2 v (path ++ [PathElem.key kv.1])
                      have h1 : jsize kv.2 < jsizeKV props := mem_jsize hkv
                      have h2 : jsizeKV props < jsizeKV pkvs := propsOf_jsize hp
                      exact evalF_congr pm (jsizeKV pkvs) (jsize kv.2) kv.2 v
                        (path ++ [PathElem.key kv.1]) (by omega) (by omega)
            | null => rfl
            | bool b => rfl
            | num q => rfl
            | str s => rfl
            | arr xs => rfl
      · unfold itemsViols
        cases hi : lookup pkvs "items" with
        | none => cases data <;> rfl
        | some ip =>
            cases data with
            | arr xs =>
                by_cases ht : typeMismatchB pkvs (JValue.arr xs) = true
                · simp [ht]
                · simp only [ht, Bool.false_eq_true, if_false]
                  congr 1
                  apply List.map_congr_left
                  intro iv hiv
                  have h1 := lookup_jsize hi
                  exact evalF_congr pm (jsizeKV pkvs) (jsize ip) ip iv.2
                    (path ++ [PathElem.idx iv.1]) (by omega) (by omega)
            | null => rfl
            | bool b => rfl
            | num q => rfl
            | str s => rfl
            | obj dkvs => rfl

theorem evalF_not_obj (pm : String → String → Bool) (n : Nat) (policy data : JValue)
    (path : List PathElem) (h : ∀ pkvs, policy ≠ .obj pkvs) :
    evalF pm n policy data path = [] := by
  cases n with
  | zero => rfl
  | succ n =>
      cases policy with
      | obj pkvs => exact absurd rfl (h pkvs)
      | null => rfl
      | bool b => rfl
      | num q => rfl
      | str s => rfl
      | arr xs => rfl

/-- Unfolding of the evaluator at a policy node that is not a Mapping: no
recognized constraint keys, so it matches anything. -/
theorem evaluate_not_obj (pm : String → String → Bool) (policy data : JValue)
    (path : List PathElem) (h : ∀ pkvs, policy ≠ .obj pkvs) :
    evaluate pm policy data path = [] := by
  rw [evaluate]
  exact evalF_not_obj pm (jsize policy) policy data path h

/-- The evaluator may be computed with any sufficiently large fuel. -/
theorem evaluate_fuel (pm : String → String → Bool) (n : Nat) (policy data : JValue)
    (path : List PathElem) (h : jsize policy ≤ n) :
    evaluate pm policy data path = evalF pm n policy data path := by
  rw [evaluate]
  exact evalF_congr pm (jsize policy) n policy data path (Nat.le_refl _) h

/-- validate_data on a container policy reduces to emptiness of the
evaluator's violation list. -/
theorem validate_data_eq_isEmpty (pm : String → String → Bool) (data schema : JValue)
    (h : isContainer schema = true) :
    validate_data pm data schema = (evaluate pm schema data []).isEmpty := by
  unfold validate_data validate_data_run check buildReport
  rw [h]
  by_cases hc : (evaluate pm schema data []).isEmpty = true
  · simp [hc]
  · simp [hc]

/-- validate_data on a non-container (bare scalar) policy: the SchemaError
is caught and False returned. -/
theorem validate_data_scalar (pm : String → String → Bool) (data schema : JValue)
    (h : isContainer schema = false) : validate_data pm data schema = false := by
  unfold validate_data validate_data_run check
  rw [h]
  rfl

/-- validate_data, computed with explicit fuel. -/
theorem validate_data_fuel (pm : String → String → Bool) (data schema : JValue)
    (n : Nat) (hn : jsize schema ≤ n) :
    validate_data pm data schema =
      (isContainer schema && (evalF pm n schema data []).isEmpty) := by
  by_cases h : isContainer schema = true
  · rw [validate_data_eq_isEmpty pm data schema h, evaluate_fuel pm n schema data [] hn, h,
      Bool.true_and]
  · have h2 : isContainer schema = false := by
      cases hh : isContainer schema
      · rfl
      · exact absurd hh h
    rw [validate_data_scalar pm data schema h2, h2, Bool.false_and]

theorem lookup_append_some {kvs l : List (String × JValue)} {k : String} {w : JValue}
    (h : lookup kvs k = some w) : lookup (kvs ++ l) k = some w := by
  induction kvs with
  | nil => simp [lookup] at h
  | cons p rest ih =>
      obtain ⟨k', v'⟩ := p
      by_cases hk : k' = k
      · simp [lookup, hk] at h ⊢
        exact h
      · simp [lookup, hk] at h ⊢
        exact ih h

theorem lookup_append_none {kvs : List (String × JValue)} {k k' : String} {v : JValue}
    (h : lookup kvs k' = none) (hne : k' ≠ k) :
    lookup (kvs ++ [(k, v)]) k' = none := by
  induction kvs with
  | nil => simp [lookup]; exact fun he => absurd he.symm hne
  | cons p rest ih =>
      obtain ⟨k0, v0⟩ := p
      by_cases hk : k0 = k'
      · simp [lookup, hk] at h
      · simp [lookup, hk] at h ⊢
        exact ih h

theorem lookup_none_of_no_key {kvs : List (String × JValue)} {k : String}
    (h : ∀ p ∈ kvs, p.1 ≠ k) : lookup kvs k = none := by
  induction kvs with
  | nil => rfl
  | cons p rest ih =>
      obtain ⟨k', v'⟩ := p
      have h1 : k' ≠ k := h (k', v') (List.mem_cons_self _ _)
      simp [lookup, h1]
      exact ih (fun q hq => h q (List.mem_cons_of_mem _ hq))

theorem typeMismatchB_obj_ext (pkvs : List (String × JValue))
    (a b : List (String × JValue)) :
    typeMismatchB pkvs (JValue.obj a) = typeMismatchB pkvs (JValue.obj b) := by
  unfold typeMismatchB
  cases hl : lookup pkvs "type" with
  | none => rfl
  | some v =>
      cases v with
      | str t => simp [typeMatches, kindName]
      | null => rfl
      | bool c => rfl
      | num q => rfl
      | arr xs => rfl
      | obj kvs => rfl

theorem enumFailB_obj (pkvs dkvs : List (String × JValue)) :
    enumFailB pkvs (JValue.obj dkvs) = false := by
  unfold enumFailB
  cases hl : lookup pkvs "enum" with
  | none => rfl
  | some v =>
      cases v with
      | arr vs => simp [isScalar]
      | null => rfl
      | bool c => rfl
      | num q => rfl
      | str s => rfl
      | obj kvs => rfl

theorem patternViols_obj (pm : String → String → Bool) (pkvs dkvs : List (String × JValue))
    (path : List PathElem) : patternViols pm pkvs (JValue.obj dkvs) path = [] := by
  unfold patternViols
  cases hl : lookup pkvs "pattern" with
  | none => rfl
  | some v => cases v <;> rfl

theorem rangeViols_obj (pkvs dkvs : List (String × JValue)) (path : List PathElem) :
    rangeViols pkvs (JValue.obj dkvs) path = [] := rfl

theorem itemsViols_obj (pm : String → String → Bool) (pkvs dkvs : List (String × JValue))
    (path : List PathElem) : itemsViols pm pkvs (JValue.obj dkvs) path = [] := by
  unfold itemsViols
  cases hl : lookup pkvs "items" with
  | none => rfl
  | some ip => rfl

theorem typeMismatchB_none {pkvs : List (String × JValue)} (data : JValue)
    (h : lookup pkvs "type" = none) : typeMismatchB pkvs data = false := by
  unfold typeMismatchB
  rw [h]

theorem enumFailB_none {pkvs : List (String × JValue)} (data : JValue)
    (h : lookup pkvs "enum" = none) : enumFailB pkvs data = false := by
  unfold enumFailB
  rw [h]

theorem patternViols_none (pm : String → String → Bool) {pkvs : List (String × JValue)}
    (data : JValue) (path : List PathElem) (h : lookup pkvs "pattern" = none) :
    patternViols pm pkvs data path = [] := by
  unfold patternViols
  rw [h]

theorem rangeViols_none {pkvs : List (String × JValue)} (data : JValue)
    (path : List PathElem) (hmin : lookup pkvs "minimum" = none)
    (hmax : lookup pkvs "maximum" = none) : rangeViols pkvs data path = [] := by
  unfold rangeViols
  cases data with
  | num n => rw [hmin, hmax]; rfl
  | null => rfl
  | bool b => rfl
  | str s => rfl
  | arr xs => rfl
  | obj kvs => rfl

theorem requiredViols_none {pkvs : List (String × JValue)} (data : JValue)
    (path : List PathElem) (h : lookup pkvs "required" = none) :
    requiredViols pkvs data path = [] := by
  unfold requiredViols
  rw [h]

theorem propsOf_none {pkvs : List (String × JValue)} (h : lookup pkvs "properties" = none) :
    propsOf pkvs = none := by
  unfold propsOf
  rw [h]

theorem propsViols_of_propsOf_none (pm : String → String → Bool)
    {pkvs : List (String × JValue)} (data : JValue) (path : List PathElem)
    (h : propsOf pkvs = none) : propsViols pm pkvs data path = [] := by
  unfold propsViols
  rw [h]

theorem itemsViols_none (pm : String → String → Bool) {pkvs : List (String × JValue)}
    (data : JValue) (path : List PathElem) (h : lookup pkvs "items" = none) :
    itemsViols pm pkvs data path = [] := by
  unfold itemsViols
  rw [h]

theorem requiredViols_some_arr {pkvs : List (String × JValue)} {rs : List JValue}
    (dkvs : List (String × JValue)) (path : List PathElem)
    (hr : lookup pkvs "required" = some (JValue.arr rs)) :
    requiredViols pkvs (JValue.obj dkvs) path =
      rs.filterMap (fun r =>
        match r with
        | .str k =>
            match lookup dkvs k with
            | none => some ⟨path ++ [PathElem.key k], Rule.MissingRequired, k, "absent"⟩
            | some _ => none
        | _ => none) := by
  unfold requiredViols
  rw [hr]

theorem propsViols_some (pm : String → String → Bool) {pkvs props : List (String × JValue)}
    (dkvs : List (String × JValue)) (path : List PathElem)
    (hp : propsOf pkvs = some props) :
    propsViols pm pkvs (JValue.obj dkvs) path =
      (if typeMismatchB pkvs (JValue.obj dkvs) then [] else
       (props.map (fun kv =>
          match lookup dkvs kv.1 with
          | some v => evaluate pm kv.2 v (path ++ [PathElem.key kv.1])
          | none => [])).flatten) := by
  unfold propsViols
  rw [hp]

/-- A key absent from both `properties` and the data Mapping: appending it
leaves the `required` violations unchanged when they were empty. -/
theorem requiredViols_append {pkvs dkvs : List (String × JValue)} {path : List PathElem}
    (k : String) (v : JValue)
    (h : requiredViols pkvs (JValue.obj dkvs) path = []) :
    requiredViols pkvs (JValue.obj (dkvs ++ [(k, v)])) path = [] := by
  cases hr : lookup pkvs "required" with
  | none => exact requiredViols_none _ _ hr
  | some r =>
      cases r with
      | arr rs =>
          rw [requiredViols_some_arr dkvs path hr] at h
          rw [requiredViols_some_arr (dkvs ++ [(k, v)]) path hr]
          rw [List.filterMap_eq_nil_iff] at h ⊢
          intro r hmem
          have h2 := h r hmem
          cases r with
          | str kk =>
              have h3 : (match lookup dkvs kk with
                | none => some (⟨path ++ [PathElem.key kk], Rule.MissingRequired,
                    kk, "absent"⟩ : Violation)
                | some _ => none) = none := h2
              show (match lookup (dkvs ++ [(k, v)]) kk with
                | none => some (⟨path ++ [PathElem.key kk], Rule.MissingRequired,
                    kk, "absent"⟩ : Violation)
                | some _ => none) = none
              cases hl : lookup dkvs kk with
              | none =>
                  rw [hl] at h3
                  simp at h3
              | some w =>
                  rw [lookup_append_some hl]
          | null => rfl
          | bool b => rfl
          | num q => rfl
          | arr xs => rfl
          | obj kvs2 => rfl
      | null => unfold requiredViols; rw [hr]
      | bool b => unfold requiredViols; rw [hr]
      | num q => unfold requiredViols; rw [hr]
      | str s => unfold requiredViols; rw [hr]
      | obj kvs2 => unfold requiredViols; rw [hr]

/-- Appending a key not declared in `properties` leaves the `properties`
violations unchanged. -/
theorem propsViols_append (pm : String → String → Bool)
    {pkvs dkvs : List (String × JValue)} {path : List PathElem} (k : String) (v : JValue)
    (hk : k ∉ propKeys (JValue.obj pkvs)) :
    propsViols pm pkvs (JValue.obj (dkvs ++ [(k, v)])) path =
      propsViols pm pkvs (JValue.obj dkvs) path := by
  cases hp : propsOf pkvs with
  | none =>
      rw [propsViols_of_propsOf_none pm _ path hp, propsViols_of_propsOf_none pm _ path hp]
  | some props =>
      rw [propsViols_some pm _ path hp, propsViols_some pm _ path hp,
        typeMismatchB_obj_ext pkvs (dkvs ++ [(k, v)]) dkvs]
      by_cases ht : typeMismatchB pkvs (JValue.obj dkvs) = true
      · simp [ht]
      · simp only [ht, Bool.false_eq_true, if_false]
        congr 1
        apply List.map_congr_left
        intro kv2 hmem
        have hne : kv2.1 ≠ k := by
          intro he
          apply hk
          show k ∈ (match propsOf pkvs with
            | some props => List.map Prod.fst props
            | none => [])
          rw [hp]
          exact List.mem_map.mpr ⟨kv2, hmem, he⟩
        cases hl : lookup dkvs kv2.1 with
        | none => rw [lookup_append_none hl hne]
        | some w => rw [lookup_append_some hl]

/-- C1: for every well-formed policy/data pair (the policy root a Mapping
or Sequence, i.e. past input validation), the check terminates with an
ordinary report and validate_data returns its verdict; no error escapes
for any shape mismatch between data and policy. -/
theorem check_total (pm : String → String → Bool) (policy data : JValue)
    (h : isContainer policy = true) :
    ∃ r : DriftReport, check pm policy data = Except.ok r ∧
      validate_data pm data policy = r.compliant := by
  refine ⟨buildReport (evaluate pm policy data []), ?_, ?_⟩
  · simp [check, h]
  · rw [validate_data_eq_isEmpty pm data policy h]
    rfl

theorem check_total_witness :
    isContainer (JValue.obj []) = true ∧
    ∃ r : DriftReport, check pm0 (JValue.obj []) JValue.null = Except.ok r ∧
      validate_data pm0 JValue.null (JValue.obj []) = r.compliant :=
  ⟨by decide, check_total pm0 (JValue.obj []) JValue.null (by decide)⟩

/-- C2: over well-formed policies, the verdict is True exactly when the
evaluation produced no violations, and False exactly when at least one
constraint was violated. -/
theorem validate_data_true_iff (pm : String → String → Bool) (data schema : JValue)
    (h : isContainer schema = true) :
    validate_data pm data schema = true ↔ evaluate pm schema data [] = [] := by
  rw [validate_data_eq_isEmpty pm data schema h]
  exact List.isEmpty_iff

theorem validate_data_true_iff_witness :
    isContainer (JValue.obj []) = true ∧
    (validate_data pm0 JValue.null (JValue.obj []) = true ↔
      evaluate pm0 (JValue.obj []) JValue.null [] = []) :=
  ⟨by decide, validate_data_true_iff pm0 JValue.null (JValue.obj []) (by decide)⟩

/-- C3 counterexample: for the bare scalar policy 7 and data `{}`, the
inner check does fail with InvalidPolicy, but validate_data catches it and
returns the ordinary drifted verdict False to its caller — the error is
not propagated out of the validation operation. -/
theorem scalar_policy_counterexample :
    check pm0 (JValue.num 7) (JValue.obj []) = Except.error EngineError.invalidPolicy ∧
    validate_data pm0 (JValue.obj []) (JValue.num 7) = false := by
  constructor
  · rfl
  · rfl

/-- C3 (amended): a bare scalar policy root makes the inner validation
step fail with InvalidPolicy (the SchemaError of the source), but
validate_data catches that error and returns False — an ordinary drifted
verdict — instead of propagating the failure to its caller. -/
theorem scalar_policy_not_propagated (pm : String → String → Bool)
    (policy data : JValue) (h : isContainer policy = false) :
    check pm policy data = Except.error EngineError.invalidPolicy ∧
    validate_data pm data policy = false := by
  constructor
  · simp [check, h]
  · exact validate_data_scalar pm data policy h

theorem scalar_policy_not_propagated_witness :
    isContainer (JValue.num 7) = false ∧
    (check pm0 (JValue.num 7) JValue.null = Except.error EngineError.invalidPolicy ∧
     validate_data pm0 JValue.null (JValue.num 7) = false) :=
  ⟨by decide, scalar_policy_not_propagated pm0 (JValue.num 7) JValue.null (by decide)⟩

/-- C4: keys present in the data Mapping but not declared in the policy's
`properties` never produce a Violation — appending such a field to a
compliant document keeps the verdict compliant (open-world policy). -/
theorem extra_fields_preserve_compliance (pm : String → String → Bool)
    (policy : JValue) (kvs : List (String × JValue)) (k : String) (v : JValue)
    (hc : validate_data pm (JValue.obj kvs) policy = true)
    (hk : k ∉ propKeys policy) :
    validate_data pm (JValue.obj (kvs ++ [(k, v)])) policy = true := by
  have hcont : isContainer policy = true := by
    by_contra hnc
    have hfalse : isContainer policy = false := by
      cases h2 : isContainer policy
      · rfl
      · exact absurd h2 hnc
    rw [validate_data_scalar pm _ policy hfalse] at hc
    exact Bool.false_ne_true hc
  rw [validate_data_eq_isEmpty pm _ policy hcont] at hc ⊢
  rw [List.isEmpty_iff] at hc ⊢
  cases policy with
  | obj pkvs =>
      rw [evaluate_obj, enumFailB_obj, patternViols_obj, rangeViols_obj,
        itemsViols_obj] at hc
      simp only [Bool.false_eq_true, if_false, List.append_nil, List.nil_append,
        List.append_eq_nil] at hc
      obtain ⟨htv, hreq, hprops⟩ := hc
      have htm : typeMismatchB pkvs (JValue.obj kvs) = false := by
        by_contra htm
        have htm2 : typeMismatchB pkvs (JValue.obj kvs) = true := by
          cases h2 : typeMismatchB pkvs (JValue.obj kvs)
          · exact absurd h2 htm
          · rfl
        rw [htm2] at htv
        simp at htv
      rw [evaluate_obj, enumFailB_obj, patternViols_obj, rangeViols_obj,
        itemsViols_obj, typeMismatchB_obj_ext pkvs (kvs ++ [(k, v)]) kvs, htm,
        requiredViols_append k v hreq, propsViols_append pm k v hk, hprops]
      simp
  | arr xs =>
      rw [evaluate_not_obj pm _ _ [] (fun pkvs h => JValue.noConfusion h)]
  | null => simp [isContainer] at hcont
  | bool b => simp [isContainer] at hcont
  | num q => simp [isContainer] at hcont
  | str s => simp [isContainer] at hcont

theorem extra_fields_preserve_compliance_witness :
    (validate_data pm0 (JValue.obj [("x", JValue.str "ok")]) polD = true ∧
     "extra" ∉ propKeys polD) ∧
    validate_data pm0 (JValue.obj ([("x", JValue.str "ok")] ++
      [("extra", JValue.num 5)])) polD = true := by
  have h1 : validate_data pm0 (JValue.obj [("x", JValue.str "ok")]) polD = true := by
    rw [validate_data_fuel pm0 _ _ 50 (by simp [polD, jsize, jsizeKV, jsizeList])]
    rfl
  have h2 : "extra" ∉ propKeys polD := by decide
  exact ⟨⟨h1, h2⟩,
    extra_fields_preserve_compliance pm0 polD [("x", JValue.str "ok")] "extra"
      (JValue.num 5) h1 h2⟩

/-- C5 counterexample: for the policy `{required: [admins]}` and the data
`{}`, validate_data emits an error log record (src/main.py line 70), so
the validation operation is not free of logging. -/
theorem validation_failure_logged :
    (validate_data_run pm0 (JValue.obj []) polReq).2 = [LogEvent.validationError] := by
  have he : evaluate pm0 polReq (JValue.obj []) [] =
      [⟨[PathElem.key "admins"], Rule.MissingRequired, "admins", "absent"⟩] := by
    rw [evaluate_fuel pm0 20 _ _ _ (by simp [polReq, jsize, jsizeKV, jsizeList])]
    rfl
  have hc : isContainer polReq = true := rfl
  simp [validate_data_run, check, hc, he, buildReport]

/-- C5 (amended): validate_data's observable effects are its return value
and the error log records emitted when validation fails or the policy is
unusable; it performs no alerting and no other output, and on a compliant
run it emits no log records at all. -/
theorem compliant_run_no_logging (pm : String → String → Bool) (data schema : JValue)
    (h : validate_data pm data schema = true) :
    (validate_data_run pm data schema).2 = [] := by
  unfold validate_data at h
  unfold validate_data_run at h ⊢
  cases hc : check pm schema data with
  | error e =>
      rw [hc] at h
      simp at h
  | ok r =>
      rw [hc] at h
      by_cases hr : r.compliant = true
      · simp [hr]
      · simp [hr] at h

theorem compliant_run_no_logging_witness :
    validate_data pm0 JValue.null (JValue.obj []) = true ∧
    (validate_data_run pm0 JValue.null (JValue.obj [])).2 = [] := by
  have h1 : validate_data pm0 JValue.null (JValue.obj []) = true := by
    rw [validate_data_fuel pm0 _ _ 5 (by simp [jsize, jsizeKV])]
    rfl
  exact ⟨h1, compliant_run_no_logging pm0 JValue.null (JValue.obj []) h1⟩

/-- C6: evaluation is deterministic — two runs of the check on identical
policy and data inputs produce identical reports (same verdict, same
violations in the same order) and identical log output; the result depends
on nothing but the inputs. -/
theorem check_deterministic (pm : String → String → Bool) (p1 d1 p2 d2 : JValue)
    (hp : p1 = p2) (hd : d1 = d2) :
    check pm p1 d1 = check pm p2 d2 ∧
    validate_data_run pm d1 p1 = validate_data_run pm d2 p2 := by
  subst hp
  subst hd
  exact ⟨rfl, rfl⟩

theorem check_deterministic_witness :
    polA = polA ∧ dataA = dataA ∧
    (check pm0 polA dataA = check pm0 polA dataA ∧
     validate_data_run pm0 dataA polA = validate_data_run pm0 dataA polA) :=
  ⟨rfl, rfl, check_deterministic pm0 polA dataA polA dataA rfl rfl⟩

/-- C7: a policy Mapping with none of the recognized constraint keys
matches anything — every data document evaluates with zero violations and
a compliant verdict (open policy). -/
theorem open_policy_matches_anything (pm : String → String → Bool)
    (pkvs : List (String × JValue)) (data : JValue) (path : List PathElem)
    (h : ∀ p ∈ pkvs, p.1 ∉ recognizedKeys) :
    evaluate pm (JValue.obj pkvs) data path = [] ∧
    validate_data pm data (JValue.obj pkvs) = true := by
  have hnone : ∀ key ∈ recognizedKeys, lookup pkvs key = none := by
    intro key hkey
    apply lookup_none_of_no_key
    intro p hp he
    exact h p hp (he ▸ hkey)
  have heq : ∀ path' : List PathElem, evaluate pm (JValue.obj pkvs) data path' = [] := by
    intro path'
    rw [evaluate_obj,
      enumFailB_none data (hnone "enum" (by decide)),
      typeMismatchB_none data (hnone "type" (by decide)),
      patternViols_none pm data path' (hnone "pattern" (by decide)),
      rangeViols_none data path' (hnone "minimum" (by decide)) (hnone "maximum" (by decide)),
      requiredViols_none data path' (hnone "required" (by decide)),
      propsViols_of_propsOf_none pm data path' (propsOf_none (hnone "properties" (by decide))),
      itemsViols_none pm data path' (hnone "items" (by decide))]
    simp
  refine ⟨heq path, ?_⟩
  rw [validate_data_eq_isEmpty pm data (JValue.obj pkvs) rfl, heq []]
  rfl

theorem open_policy_matches_anything_witness :
    (∀ p ∈ ([] : List (String × JValue)), p.1 ∉ recognizedKeys) ∧
    (evaluate pm0 (JValue.obj []) (JValue.str "anything") [] = [] ∧
     validate_data pm0 (JValue.str "anything") (JValue.obj []) = true) :=
  ⟨by simp, open_policy_matches_anything pm0 [] (JValue.str "anything") [] (by simp)⟩

/-- C8: Scenario A — policy `{type: object, required: [port], properties:
{port: {type: number, minimum: 1, maximum: 65535}}}` against data
`{port: 70000}` yields drift with exactly one Violation, of rule
RangeViolation at path ["port"]. -/
theorem scenario_a_range_violation (pm : String → String → Bool) :
    (evaluate pm polA dataA []).map (fun v => (v.rule, v.path)) =
      [(Rule.RangeViolation, [PathElem.key "port"])] ∧
    validate_data pm dataA polA = false := by
  constructor
  · rw [evaluate_fuel pm 100 _ _ _ (by simp [polA, jsize, jsizeList, jsizeKV])]
    rfl
  · rw [validate_data_fuel pm dataA polA 100 (by simp [polA, jsize, jsizeList, jsizeKV])]
    rfl

/-- C9: Scenario D — policy `{type: object, properties: {x: {type:
string}}}` against data `{x: "ok"}` yields a compliant report with an
empty violation list. -/
theorem scenario_d_compliant (pm : String → String → Bool) :
    check pm polD dataD = Except.ok ⟨true, []⟩ ∧
    validate_data pm dataD polD = true := by
  have he : evaluate pm polD dataD [] = [] := by
    rw [evaluate_fuel pm 100 _ _ _ (by simp [polD, jsize, jsizeList, jsizeKV])]
    rfl
  have hc : isContainer polD = true := rfl
  constructor
  · simp [check, hc, he, buildReport]
  · rw [validate_data_eq_isEmpty pm dataD polD hc, he]
    rfl

/-- C10: if either loaded document is falsy (None, False, 0, "", [] or
{}), main exits with status 1 before validate_data is ever invoked — in
particular an empty policy document is never validated against. -/
theorem falsy_document_exits (pm : String → String → Bool) (policy_data system_data : JValue)
    (h : falsy policy_data = true ∨ falsy system_data = true) :
    main_after_load pm policy_data system_data = MainOutcome.exit 1 := by
  rcases h with h | h
  · simp [main_after_load, h]
  · by_cases hp : falsy policy_data = true
    · simp [main_after_load, hp]
    · simp [main_after_load, hp, h]

theorem falsy_document_exits_witness :
    (falsy (JValue.obj []) = true ∨ falsy (JValue.str "x") = true) ∧
    main_after_load pm0 (JValue.obj []) (JValue.str "x") = MainOutcome.exit 1 :=
  ⟨Or.inl (by decide), falsy_document_exits pm0 (JValue.obj []) (JValue.str "x")
    (Or.inl (by decide))⟩
